import Mathlib

/-!
# Verification of the RSDashboard log-derived state tracker

Shallow embedding of the core state-tracking logic of
`RS_Dash_Consolidated.py` (and its near-duplicate `RSDash.py`):

* `update_pending_orders` — the two-pass scan that inserts pending orders
  from "Scheduled … order:" log lines and deletes them on
  "Sent command: !rsa …" log lines (source lines 190–229);
* `update_nasdaq_alerts` — the block scanner that turns "Received message:"
  trigger blocks into alert strings and keeps the last five in a
  `deque(maxlen=5)` (source lines 143–188);
* the inline change-tracking logic of `build_top_holdings_by_broker_table`
  / `create_dashboard` (source lines 425–478 and 539–593), factored here
  as `observeEntry` plus the presentation sort `sortRows`.

A log line is represented by the outcome of the regular-expression
searches the source performs on it: each capture group becomes a string
field, an optional group becomes an `Option String`, and a substring
containment test becomes a `Bool` field.  Numeric snapshot values are
modelled as integers (the claims under study only involve exact
arithmetic), and wall-clock times as integer seconds.  Python string
methods on the ASCII text produced by the regex character classes are
implemented over the underlying character lists.
-/

namespace RSDash

/-! ## Python string primitives (over the underlying character lists) -/

/-- Python `str.lower()` on the ASCII text matched by the source regexes. -/
def pyLower (s : String) : String := ⟨s.data.map Char.toLower⟩

/-- Python `str.upper()` on the ASCII text matched by the source regexes. -/
def pyUpper (s : String) : String := ⟨s.data.map Char.toUpper⟩

/-- Python `str.strip()`: remove leading and trailing whitespace. -/
def pyStrip (s : String) : String :=
  ⟨((s.data.dropWhile Char.isWhitespace).reverse.dropWhile
      Char.isWhitespace).reverse⟩

/-- Python `str.split(c)` for a one-character separator: split at every
occurrence, keeping empty pieces. -/
def pySplit (s : String) (c : Char) : List String :=
  (s.data.splitOn c).map List.asString

/-- Python `str.startswith(p)`. -/
def pyStartsWith (s p : String) : Bool := p.data.isPrefixOf s.data

/-! ## Pending orders (`update_pending_orders`, source lines 190–229) -/

/-- A lifecycle key `(action, ticker, broker)` exactly as the source builds
`key = (action, ticker, broker_field)`. -/
abbrev LifecycleKey := String × String × String

/-- The dict value stored in `pending_orders[key]`
(source lines 210–216). -/
structure PendingOrder where
  quantity : String
  time : String
  action : String
  ticker : String
  broker : String
  deriving DecidableEq, Repr

/-- `pending_orders` is a Python dict; we model it as an insertion-ordered
association list with unique keys (the dict invariant, proved below). -/
abbrev PendingMap := List (LifecycleKey × PendingOrder)

/-- `pending_orders[key] = value` executed only when
`key not in pending_orders` (source lines 209–216): Python dict insertion
appends in iteration order. -/
def insertIfAbsent (m : PendingMap) (k : LifecycleKey) (v : PendingOrder) :
    PendingMap :=
  if (m.lookup k).isSome then m else m ++ [(k, v)]

/-- `del pending_orders[key]` (source line 229).  On a unique-key list this
is exactly dict deletion; on any list it removes every pair with key `k`. -/
def eraseKey (m : PendingMap) (k : LifecycleKey) : PendingMap :=
  m.filter (fun p => p.1 != k)

/-- Capture groups of `sched_pattern`
`Scheduled (buy|sell) order: ([A-Za-z0-9,]+), quantity: ([\d.]+),
broker: ([\w]+), time: ([\d-]+ [\d:]+)` (source lines 196–198). -/
structure SchedGroups where
  action : String
  tickers : String
  quantity : String
  broker : String
  time : String
  deriving DecidableEq, Repr

/-- `[t.strip().upper() for t in m.group(2).split(",") if t.strip()]`
(source line 203). -/
def schedTickers (g : SchedGroups) : List String :=
  (pySplit g.tickers ',').filterMap fun t =>
    if pyStrip t = "" then none else some (pyUpper (pyStrip t))

/-- Processing of one matched scheduled-order line
(source lines 202–216). -/
def schedStep (m : PendingMap) (g : SchedGroups) : PendingMap :=
  let action := pyLower g.action
  let broker := pyLower g.broker
  (schedTickers g).foldl
    (fun acc ticker =>
      insertIfAbsent acc (action, ticker, broker)
        ⟨g.quantity, g.time, action, ticker, broker⟩)
    m

/-- Capture groups of `comp_pattern`
`Sent command: !rsa (buy|sell) [\d.]+ ([A-Za-z0-9]+)(?: (\w+))?`
(source lines 217–219); group 3 is the optional trailing broker token. -/
structure CompGroups where
  action : String
  ticker : String
  broker : Option String
  deriving DecidableEq, Repr

/-- Key built from a completion match: `broker_field = m.group(3) if
m.group(3) else ""`, lowercased; action lowercased, ticker uppercased
(source lines 223–227). -/
def compKey (g : CompGroups) : LifecycleKey :=
  (pyLower g.action, pyUpper g.ticker, pyLower (g.broker.getD ""))

/-- Processing of one matched completion line (source lines 222–229):
delete the key when present, silently do nothing otherwise. -/
def compStep (m : PendingMap) (g : CompGroups) : PendingMap :=
  if (m.lookup (compKey g)).isSome then eraseKey m (compKey g) else m

/-- One log line, represented by the outcomes of the two regex searches
`sched_pattern.search(line)` and `comp_pattern.search(line)` that
`update_pending_orders` performs on it. -/
structure PendingLine where
  sched : Option SchedGroups
  comp : Option CompGroups
  deriving DecidableEq, Repr

/-- The first `for line in lines` loop (source lines 199–216): handle
every scheduled-order match. -/
def schedPass (lines : List PendingLine) (m : PendingMap) : PendingMap :=
  lines.foldl
    (fun acc l => match l.sched with
      | some g => schedStep acc g
      | none => acc) m

/-- The second `for line in lines` loop (source lines 220–229): handle
every completion match. -/
def compPass (lines : List PendingLine) (m : PendingMap) : PendingMap :=
  lines.foldl
    (fun acc l => match l.comp with
      | some g => compStep acc g
      | none => acc) m

/-- `update_pending_orders` (source lines 190–229): a full pass over all
lines handling scheduled-order matches, then a second full pass over all
lines handling completion matches. -/
def update_pending_orders (lines : List PendingLine) (m : PendingMap) :
    PendingMap :=
  compPass lines (schedPass lines m)

/-- The lifecycle keys contributed by one scheduled-order match: one per
parsed ticker (source lines 207–208). -/
def schedKeys (g : SchedGroups) : List LifecycleKey :=
  (schedTickers g).map (fun t => (pyLower g.action, t, pyLower g.broker))

/-- The order value stored for ticker `t` of a scheduled-order match
(source lines 210–216). -/
def schedOrder (g : SchedGroups) (t : String) : PendingOrder :=
  ⟨g.quantity, g.time, pyLower g.action, t, pyLower g.broker⟩

/-! ## Timestamp parsing and formatting

The trigger-line regex `^(\d{4}-\d{2}-\d{2})\s+(\d{2}:\d{2}:\d{2}),\d+`
(source line 154) captures fixed-width digit groups, so a match is
faithfully represented by its six numeric fields; the raw captured
substrings are recovered by zero-padded rendering. -/

/-- The six numeric fields of a matched `YYYY-MM-DD` / `HH:MM:SS` pair. -/
structure TimeGroups where
  year : Nat
  month : Nat
  day : Nat
  hour : Nat
  minute : Nat
  second : Nat
  deriving DecidableEq, Repr

/-- Digit-width bounds guaranteed by the fixed-width regex groups. -/
def TimeGroups.widthOk (t : TimeGroups) : Prop :=
  t.year < 10000 ∧ t.month < 100 ∧ t.day < 100 ∧
  t.hour < 100 ∧ t.minute < 100 ∧ t.second < 100

instance (t : TimeGroups) : Decidable t.widthOk := by
  unfold TimeGroups.widthOk; infer_instance

/-- Zero-padded decimal rendering to width `k` (Python `%0kd`). -/
def padDigits (k n : Nat) : List Char :=
  List.replicate (k - (Nat.toDigits 10 n).length) '0' ++ Nat.toDigits 10 n

/-- The raw `date_str` capture, `YYYY-MM-DD`. -/
def dateChars (t : TimeGroups) : List Char :=
  padDigits 4 t.year ++ '-' :: padDigits 2 t.month ++ '-' :: padDigits 2 t.day

/-- The raw `time_str` capture, `HH:MM:SS`. -/
def timeChars (t : TimeGroups) : List Char :=
  padDigits 2 t.hour ++ ':' :: padDigits 2 t.minute ++ ':' :: padDigits 2 t.second

/-- Gregorian leap-year rule used by Python `datetime`. -/
def leapYear (y : Nat) : Bool :=
  y % 4 = 0 && (y % 100 != 0 || y % 400 = 0)

/-- Days in a month of the proleptic Gregorian calendar. -/
def daysInMonth (y mo : Nat) : Nat :=
  if mo = 2 then (if leapYear y then 29 else 28)
  else if mo = 4 ∨ mo = 6 ∨ mo = 9 ∨ mo = 11 then 30
  else 31

/-- Whether `datetime.strptime(f"{date_str} {time_str}",
"%Y-%m-%d %H:%M:%S")` succeeds on the digit-shaped captures: the year must
be a valid `datetime` year (≥ 1), the month 1–12, the day within the
month, the hour ≤ 23 and minute/second ≤ 59 (a two-digit field outside
these ranges makes the strptime pattern or the `datetime` constructor
fail, raising the exception the source catches). -/
def strptimeOk (t : TimeGroups) : Bool :=
  1 ≤ t.year && 1 ≤ t.month && t.month ≤ 12 &&
  1 ≤ t.day && t.day ≤ daysInMonth t.year t.month &&
  t.hour ≤ 23 && t.minute ≤ 59 && t.second ≤ 59

/-- Python `strftime("%m/%d/%Y %I:%M %p")`: `%I` is the zero-padded
12-hour clock (0 → 12, 13 → 01) and `%p` is `AM` for hours 0–11, `PM`
for 12–23. -/
def strftimeChars (t : TimeGroups) : List Char :=
  let h12 := if t.hour % 12 = 0 then 12 else t.hour % 12
  padDigits 2 t.month ++ '/' :: padDigits 2 t.day ++ '/' :: padDigits 4 t.year
    ++ ' ' :: padDigits 2 h12 ++ ':' :: padDigits 2 t.minute
    ++ ' ' :: (if t.hour < 12 then ['A', 'M'] else ['P', 'M'])

/-- Python `str.lstrip("0")`: remove every leading `'0'` character. -/
def lstripZero (l : List Char) : List Char := l.dropWhile (· == '0')

/-- `formatted_dt` for a trigger line whose time regex matched
(source lines 157–161): on strptime success,
`dt.strftime("%m/%d/%Y %I:%M %p").lstrip("0")`; on failure, the
`f"{time_str} {date_str}"` fallback. -/
def formatMatchedTime (t : TimeGroups) : String :=
  if strptimeOk t then ⟨lstripZero (strftimeChars t)⟩
  else ⟨timeChars t ++ ' ' :: dateChars t⟩

/-! ## Nasdaq alerts (`update_nasdaq_alerts`, source lines 143–188) -/

/-- One log line as seen by `update_nasdaq_alerts`, represented by the
outcomes of the tests the source applies to it:
* `hasReceived` — `"Received message:" in line`;
* `timeMatch` — the groups of the leading timestamp regex (line 154);
* `tickerMatch` — group 1 of `re.search(r"\((\w+)\)", line)` (line 164);
* `urlPayload` — when `"URL detected in alert message:" in line`, the
  value `line.split("URL detected in alert message:")[1].strip()`
  (lines 170–173), possibly the empty string;
* `hasConfirmMarker` — `"Returning parsed info. Reverse split confirmed:"
  in line` (line 174);
* `hasTrue` — `"True" in line` (line 175). -/
structure AlertLine where
  hasReceived : Bool
  timeMatch : Option TimeGroups
  tickerMatch : Option String
  urlPayload : Option String
  hasConfirmMarker : Bool
  hasTrue : Bool
  deriving DecidableEq, Repr

/-- `formatted_dt` for a trigger line (source lines 154–163): empty when
the leading timestamp regex did not match. -/
def triggerFormattedTime (tm : Option TimeGroups) : String :=
  match tm with
  | some t => formatMatchedTime t
  | none => ""

/-- The alert produced by one trigger block (source lines 164–184):
`trigger` is the `"Received message:"` line, `block` the following lines
up to (excluding) the next trigger line.  The URL variable is overwritten
on every URL-marker line, so the last payload wins; the confirmation flag
is an OR over the block; `if url:` treats an empty payload as no URL. -/
def buildAlert (trigger : AlertLine) (block : List AlertLine) :
    Option String :=
  let formattedDt := triggerFormattedTime trigger.timeMatch
  let ticker := trigger.tickerMatch.getD "UNKNOWN"
  let url := (block.filterMap (fun l => l.urlPayload)).getLast?
  let confirmed := block.any (fun l => l.hasConfirmMarker && l.hasTrue)
  if confirmed then
    let msg := "Reverse Stock Split Confirmed for " ++ ticker ++ " on "
      ++ formattedDt
    let msg := match url with
      | some u => if u = "" then msg else msg ++ " - " ++ u
      | none => msg
    some (if pyStartsWith msg "📰" then msg else "📰 " ++ msg)
  else none

/-- The index-driven scan of `update_nasdaq_alerts` (source lines
150–187), with an explicit step budget for structural recursion: at a
trigger line, the inner `while` walks forward over the non-trigger lines
(the block), one alert is possibly appended, and the outer loop resumes
at the next trigger line (`i = j`); non-trigger lines outside a block are
skipped.  The budget never runs out when it bounds the number of lines,
since both recursive calls shorten the list (`scanAlertsAux_congr`). -/
def scanAlertsAux : Nat → List AlertLine → List String
  | 0, _ => []
  | _, [] => []
  | fuel + 1, l :: rest =>
    if l.hasReceived then
      (buildAlert l (rest.takeWhile (fun x => !x.hasReceived))).toList
        ++ scanAlertsAux fuel (rest.dropWhile (fun x => !x.hasReceived))
    else scanAlertsAux fuel rest

/-- The list of alerts appended by one run of the scan, in append order. -/
def scanAlerts (lines : List AlertLine) : List String :=
  scanAlertsAux lines.length lines

/-- `update_nasdaq_alerts` (source lines 143–188): the previous buffer
contents `prev` are discarded by `nasdaq_alerts.clear()`, the scan re-runs
over the given lines, and the `deque(maxlen=5)` retains the last five
appended alerts in order. -/
def update_nasdaq_alerts (prev : List String) (lines : List AlertLine) :
    List String :=
  let scanned := scanAlerts lines
  scanned.drop (scanned.length - 5)

/-! ## Change tracking (source lines 425–478 and 539–593)

`build_top_holdings_by_broker_table` and `create_dashboard` run the same
per-key update of `top_holdings_changes[key]` / `broker_changes[key]`;
the update reads and writes only the entry of the current key, so it is
factored here as a function of that single entry. -/

/-- The per-key dict
`{"baseline_quantity", "baseline_value", "last_change_time",
"delta_quantity", "delta_value"}` (source lines 431–437). -/
structure ChangeEntry where
  baseline_quantity : Int
  baseline_value : Int
  last_change_time : Option Int
  delta_quantity : Int
  delta_value : Int
  deriving DecidableEq, Repr

/-- An entry is rendered "active" iff `last_change_time is not None`
(source line 455). -/
def ChangeEntry.active (e : ChangeEntry) : Bool := e.last_change_time.isSome

/-- One observation of a key with current totals `(q, v)` at time `now`
(source lines 430–455): creation with a fresh baseline; decay-reset when
active for ≥ 60 seconds; otherwise delta recomputation against the frozen
baseline, stamping `last_change_time = now` on a zero-to-nonzero
transition. -/
def observeEntry (e? : Option ChangeEntry) (q v now : Int) : ChangeEntry :=
  match e? with
  | none => ⟨q, v, none, 0, 0⟩
  | some e =>
    let e1 : ChangeEntry :=
      match e.last_change_time with
      | some t => if now - t ≥ 60 then ⟨q, v, none, 0, 0⟩ else e
      | none => e
    let dq := q - e1.baseline_quantity
    let dv := v - e1.baseline_value
    match e1.last_change_time with
    | none =>
      if dq ≠ 0 ∨ dv ≠ 0 then
        { e1 with last_change_time := some now, delta_quantity := dq,
                  delta_value := dv }
      else e1
    | some _ =>
      { e1 with delta_quantity := dq, delta_value := dv }

/-- A display row as far as the presentation sort is concerned: the source
rows carry `"active"` and `"change_time"` (set to `last_change_time` when
active, else `0`) plus display strings irrelevant to the order
(source lines 470–477 and 584–592). -/
structure HoldingRow where
  stock : String
  active : Bool
  change_time : Int
  deriving DecidableEq, Repr

/-- The sort key `lambda x: (not x["active"], -x["change_time"] if
x["active"] else 0)` (source lines 478 and 593). -/
def rowSortKey (x : HoldingRow) : Bool × Int :=
  (!x.active, if x.active then -x.change_time else 0)

/-- Python's ascending comparison of the key tuples
(`False < True`, then the integer component). -/
def rowLE (a b : HoldingRow) : Bool :=
  (!(rowSortKey a).1 && (rowSortKey b).1) ||
    ((rowSortKey a).1 == (rowSortKey b).1 &&
      decide ((rowSortKey a).2 ≤ (rowSortKey b).2))

/-- `rows.sort(key=...)` (source lines 478 and 593): Python's stable sort
ascending by the key; a stable sort w.r.t. a total preorder is unique, so
`mergeSort` computes the same list. -/
def sortRows (rows : List HoldingRow) : List HoldingRow :=
  rows.mergeSort rowLE

/-- The key list of a pending-order map. -/
def keysOf (m : PendingMap) : List LifecycleKey := m.map Prod.fst

/-! ## Comparison definitions taken from the specification's wording

These two definitions follow the words of the specification (not the
source) and exist only to be compared against the source-derived
definitions above. -/

/-- The alert text exactly as the specification words it: the base
message, appended with a dash and the URL if a URL was found (last URL
detail line in the block wins), prefixed with a fixed alert glyph. -/
def specAlertText (trigger : AlertLine) (block : List AlertLine) : String :=
  let base := "Reverse Stock Split Confirmed for "
    ++ trigger.tickerMatch.getD "UNKNOWN" ++ " on "
    ++ triggerFormattedTime trigger.timeMatch
  let withUrl := match (block.filterMap (fun l => l.urlPayload)).getLast? with
    | some u => base ++ " - " ++ u
    | none => base
  "📰 " ++ withUrl

/-- The timestamp rendering exactly as the specification words it:
`MM/DD/YYYY hh:mm AM/PM` "with any leading zero of the hour stripped"
(month and day stay zero-padded, the 12-hour value loses its padding). -/
def specHourStripRender (t : TimeGroups) : String :=
  let h12 := if t.hour % 12 = 0 then 12 else t.hour % 12
  ⟨padDigits 2 t.month ++ '/' :: padDigits 2 t.day ++ '/'
    :: padDigits 4 t.year ++ ' ' :: Nat.toDigits 10 h12
    ++ ':' :: padDigits 2 t.minute ++ ' '
    :: (if t.hour < 12 then ['A', 'M'] else ['P', 'M'])⟩

/-- `(l.dropWhile p).length ≤ l.length`. -/
theorem length_dropWhile_le (p : α → Bool) (l : List α) :
    (l.dropWhile p).length ≤ l.length := by
  induction l with
  | nil => simp [List.dropWhile]
  | cons a l ih =>
    by_cases h : p a
    · simp only [List.dropWhile, h]
      exact Nat.le_succ_of_le ih
    · simp [List.dropWhile, h]

/-- The step budget is irrelevant as long as it bounds the list length. -/
theorem scanAlertsAux_congr :
    ∀ (f₁ f₂ : Nat) (lines : List AlertLine), lines.length ≤ f₁ →
      lines.length ≤ f₂ → scanAlertsAux f₁ lines = scanAlertsAux f₂ lines
  | f₁, f₂, [] => by intro _ _; cases f₁ <;> cases f₂ <;> rfl
  | 0, _, l :: rest => by intro h _; exact absurd h (by simp)
  | _ + 1, 0, l :: rest => by intro _ h; exact absurd h (by simp)
  | f₁ + 1, f₂ + 1, l :: rest => by
    intro h₁ h₂
    simp only [List.length_cons, Nat.add_le_add_iff_right] at h₁ h₂
    simp only [scanAlertsAux]
    by_cases hl : l.hasReceived
    · simp only [hl, if_true]
      have := scanAlertsAux_congr f₁ f₂ (rest.dropWhile (fun x => !x.hasReceived))
        (Nat.le_trans (length_dropWhile_le _ _) h₁)
        (Nat.le_trans (length_dropWhile_le _ _) h₂)
      rw [this]
    · simp only [hl, if_false]
      exact scanAlertsAux_congr f₁ f₂ rest h₁ h₂

/-- Unfolding of the scan at a trigger line, with any sufficient budget. -/
theorem scanAlerts_trigger (l : AlertLine) (rest : List AlertLine)
    (hl : l.hasReceived = true) :
    scanAlerts (l :: rest) =
      (buildAlert l (rest.takeWhile (fun x => !x.hasReceived))).toList
        ++ scanAlerts (rest.dropWhile (fun x => !x.hasReceived)) := by
  simp only [scanAlerts, List.length_cons, scanAlertsAux, hl, if_true]
  rw [scanAlertsAux_congr rest.length _ _ (length_dropWhile_le _ _)
    Nat.le.refl]

/-- Unfolding of the scan at a non-trigger line. -/
theorem scanAlerts_skip (l : AlertLine) (rest : List AlertLine)
    (hl : l.hasReceived = false) :
    scanAlerts (l :: rest) = scanAlerts rest := by
  simp only [scanAlerts, List.length_cons, scanAlertsAux, hl,
    Bool.false_eq_true, if_false]

/-! ## Lemmas about the pending-order map -/

theorem lookup_eq_none_iff (m : PendingMap) (k : LifecycleKey) :
    m.lookup k = none ↔ ∀ p ∈ m, p.1 ≠ k := by
  induction m with
  | nil => simp
  | cons p m ih =>
    obtain ⟨pk, pv⟩ := p
    by_cases h : k = pk
    · subst h
      simp [List.lookup_cons]
    · rw [List.lookup_cons, beq_false_of_ne h]
      simp only [ih, List.mem_cons]
      constructor
      · rintro hall q (rfl | hq)
        · exact fun e => h e.symm
        · exact hall q hq
      · intro hall q hq
        exact hall q (Or.inr hq)

theorem lookup_append_single (m : PendingMap) (k k' : LifecycleKey)
    (v : PendingOrder) :
    (m ++ [(k, v)]).lookup k' =
      ((m.lookup k').orElse
        (fun _ => if k' = k then some v else none)) := by
  induction m with
  | nil =>
    by_cases h : k' = k
    · subst h; simp [List.lookup_cons]
    · simp [List.lookup_cons, beq_false_of_ne h, h]
  | cons p m ih =>
    obtain ⟨pk, pv⟩ := p
    by_cases h : k' = pk
    · subst h; simp [List.lookup_cons]
    · simp only [List.cons_append, List.lookup_cons, beq_false_of_ne h, ih]

theorem lookup_insertIfAbsent_same (m : PendingMap) (k : LifecycleKey)
    (v : PendingOrder) (h : m.lookup k = none) :
    (insertIfAbsent m k v).lookup k = some v := by
  simp only [insertIfAbsent, h, Option.isSome_none, Bool.false_eq_true,
    if_false]
  simp [lookup_append_single, h]

theorem lookup_insertIfAbsent_present (m : PendingMap) (k : LifecycleKey)
    (v : PendingOrder) (h : (m.lookup k).isSome) :
    insertIfAbsent m k v = m := by
  simp [insertIfAbsent, h]

theorem lookup_insertIfAbsent_ne (m : PendingMap) {k k' : LifecycleKey}
    (v : PendingOrder) (h : k' ≠ k) :
    (insertIfAbsent m k v).lookup k' = m.lookup k' := by
  unfold insertIfAbsent
  by_cases hp : (m.lookup k).isSome
  · simp [hp]
  · simp only [hp, Bool.false_eq_true, if_false]
    rw [lookup_append_single]
    simp [h]

theorem lookup_eraseKey_self (m : PendingMap) (k : LifecycleKey) :
    (eraseKey m k).lookup k = none := by
  rw [lookup_eq_none_iff]
  intro p hp
  have := List.of_mem_filter hp
  simpa using this

theorem lookup_eraseKey_ne (m : PendingMap) {k k' : LifecycleKey}
    (h : k ≠ k') :
    (eraseKey m k').lookup k = m.lookup k := by
  induction m with
  | nil => rfl
  | cons p m ih =>
    obtain ⟨pk, pv⟩ := p
    unfold eraseKey at ih ⊢
    by_cases hp : pk = k'
    · have hne : (k == pk) = false := beq_false_of_ne (fun e => h (e.trans hp))
      have : ((pk, pv).1 != k') = false := by simpa using hp
      rw [List.filter_cons]
      simp only [this, Bool.false_eq_true, if_false]
      rw [ih, List.lookup_cons, hne]
    · have : ((pk, pv).1 != k') = true := by simpa using hp
      rw [List.filter_cons]
      simp only [this, if_true]
      rw [List.lookup_cons, List.lookup_cons, ih]

theorem eraseKey_of_lookup_none (m : PendingMap) (k : LifecycleKey)
    (h : m.lookup k = none) : eraseKey m k = m := by
  rw [lookup_eq_none_iff] at h
  unfold eraseKey
  apply List.filter_eq_self.mpr
  intro p hp
  simpa using h p hp

theorem lookup_compStep_self (m : PendingMap) (g : CompGroups) :
    (compStep m g).lookup (compKey g) = none := by
  unfold compStep
  by_cases h : (m.lookup (compKey g)).isSome
  · simp [h, lookup_eraseKey_self]
  · simp only [h, Bool.false_eq_true, if_false]
    simpa using Option.not_isSome_iff_eq_none.mp h

theorem lookup_compStep_ne (m : PendingMap) (g : CompGroups)
    {k : LifecycleKey} (h : k ≠ compKey g) :
    (compStep m g).lookup k = m.lookup k := by
  unfold compStep
  by_cases hp : (m.lookup (compKey g)).isSome
  · simp [hp, lookup_eraseKey_ne m h]
  · simp [hp]

theorem lookup_compStep_none (m : PendingMap) (g : CompGroups)
    {k : LifecycleKey} (h : m.lookup k = none) :
    (compStep m g).lookup k = none := by
  by_cases he : k = compKey g
  · subst he; exact lookup_compStep_self m g
  · rw [lookup_compStep_ne m g he]; exact h

theorem lookup_compPass_none (lines : List PendingLine) (m : PendingMap)
    {k : LifecycleKey} (h : m.lookup k = none) :
    (compPass lines m).lookup k = none := by
  induction lines generalizing m with
  | nil => exact h
  | cons l lines ih =>
    unfold compPass at ih ⊢
    simp only [List.foldl_cons]
    cases hc : l.comp with
    | none => exact ih m h
    | some g => exact ih _ (lookup_compStep_none m g h)

theorem lookup_compPass_mem (lines : List PendingLine) (m : PendingMap)
    {lc : PendingLine} {gc : CompGroups} {k : LifecycleKey}
    (hmem : lc ∈ lines) (hc : lc.comp = some gc) (hk : compKey gc = k) :
    (compPass lines m).lookup k = none := by
  induction lines generalizing m with
  | nil => cases hmem
  | cons l lines ih =>
    unfold compPass at ih ⊢
    simp only [List.foldl_cons]
    rcases List.mem_cons.mp hmem with he | ht
    · subst he
      rw [hc]
      apply lookup_compPass_none
      rw [← hk]
      exact lookup_compStep_self m gc
    · cases l.comp with
      | none => exact ih _ ht
      | some g => exact ih _ ht

/-! ## Lemmas about the scheduled pass -/

theorem schedStep_eq (m : PendingMap) (g : SchedGroups) :
    schedStep m g = (schedTickers g).foldl
      (fun acc t =>
        insertIfAbsent acc (pyLower g.action, t, pyLower g.broker)
          (schedOrder g t)) m := rfl

theorem foldl_insert_pres (g : SchedGroups) (ts : List String)
    (acc : PendingMap) {k : LifecycleKey} {o : PendingOrder}
    (h : acc.lookup k = some o) :
    (ts.foldl
      (fun acc t =>
        insertIfAbsent acc (pyLower g.action, t, pyLower g.broker)
          (schedOrder g t)) acc).lookup k = some o := by
  induction ts generalizing acc with
  | nil => exact h
  | cons t ts ih =>
    simp only [List.foldl_cons]
    apply ih
    by_cases he : k = (pyLower g.action, t, pyLower g.broker)
    · rw [lookup_insertIfAbsent_present]
      · exact h
      · rw [← he, h]; rfl
    · rw [lookup_insertIfAbsent_ne _ _ he]; exact h

theorem foldl_insert_new (g : SchedGroups) (ts : List String)
    (acc : PendingMap) {t0 : String} (ht : t0 ∈ ts)
    (h : acc.lookup (pyLower g.action, t0, pyLower g.broker) = none ∨
      acc.lookup (pyLower g.action, t0, pyLower g.broker) =
        some (schedOrder g t0)) :
    (ts.foldl
      (fun acc t =>
        insertIfAbsent acc (pyLower g.action, t, pyLower g.broker)
          (schedOrder g t)) acc).lookup
        (pyLower g.action, t0, pyLower g.broker) =
      some (schedOrder g t0) := by
  induction ts generalizing acc with
  | nil => cases ht
  | cons t ts ih =>
    simp only [List.foldl_cons]
    by_cases he : t0 = t
    · subst he
      have hsome : (insertIfAbsent acc (pyLower g.action, t0, pyLower g.broker)
          (schedOrder g t0)).lookup (pyLower g.action, t0, pyLower g.broker) =
          some (schedOrder g t0) := by
        rcases h with hn | hs
        · exact lookup_insertIfAbsent_same _ _ _ hn
        · rw [lookup_insertIfAbsent_present _ _ _ (by rw [hs]; rfl)]
          exact hs
      exact foldl_insert_pres g ts _ hsome
    · have ht' : t0 ∈ ts := by
        rcases List.mem_cons.mp ht with h' | h'
        · exact absurd h' he
        · exact h'
      apply ih _ ht'
      have hne : (pyLower g.action, t0, pyLower g.broker) ≠
          (pyLower g.action, t, pyLower g.broker) := by
        intro e
        exact he (congrArg (fun k => k.2.1) e)
      rw [lookup_insertIfAbsent_ne _ _ hne]
      exact h

theorem lookup_schedStep_pres (m : PendingMap) (g : SchedGroups)
    {k : LifecycleKey} {o : PendingOrder} (h : m.lookup k = some o) :
    (schedStep m g).lookup k = some o := by
  rw [schedStep_eq]; exact foldl_insert_pres g _ m h

theorem lookup_schedStep_new (m : PendingMap) (g : SchedGroups)
    {t0 : String} (ht : t0 ∈ schedTickers g)
    (h : m.lookup (pyLower g.action, t0, pyLower g.broker) = none) :
    (schedStep m g).lookup (pyLower g.action, t0, pyLower g.broker) =
      some (schedOrder g t0) := by
  rw [schedStep_eq]; exact foldl_insert_new g _ m ht (Or.inl h)

/-! ## The dict invariant: unique keys -/

theorem lookup_eq_none_of_not_mem_keysOf (m : PendingMap)
    {k : LifecycleKey} (h : k ∉ keysOf m) : m.lookup k = none := by
  rw [lookup_eq_none_iff]
  intro p hp e
  exact h (e ▸ List.mem_map_of_mem Prod.fst hp)

theorem nodup_insertIfAbsent (m : PendingMap) (k : LifecycleKey)
    (v : PendingOrder) (h : (keysOf m).Nodup) :
    (keysOf (insertIfAbsent m k v)).Nodup := by
  unfold insertIfAbsent
  by_cases hp : (m.lookup k).isSome
  · simpa [hp]
  · have hn : m.lookup k = none := Option.not_isSome_iff_eq_none.mp hp
    rw [lookup_eq_none_iff] at hn
    simp only [hp, Bool.false_eq_true, if_false]
    unfold keysOf
    rw [List.map_append]
    rw [List.nodup_append]
    refine ⟨h, List.nodup_singleton _, ?_⟩
    intro a ha hb
    simp only [List.map_cons, List.map_nil, List.mem_singleton] at hb
    subst hb
    obtain ⟨p, hpm, hpk⟩ := List.mem_map.mp ha
    exact hn p hpm hpk

theorem nodup_eraseKey (m : PendingMap) (k : LifecycleKey)
    (h : (keysOf m).Nodup) : (keysOf (eraseKey m k)).Nodup :=
  List.Nodup.sublist (List.Sublist.map Prod.fst (List.filter_sublist m)) h

theorem nodup_compStep (m : PendingMap) (g : CompGroups)
    (h : (keysOf m).Nodup) : (keysOf (compStep m g)).Nodup := by
  unfold compStep
  by_cases hp : (m.lookup (compKey g)).isSome
  · simpa [hp] using nodup_eraseKey m (compKey g) h
  · simpa [hp]

theorem nodup_schedStep (m : PendingMap) (g : SchedGroups)
    (h : (keysOf m).Nodup) : (keysOf (schedStep m g)).Nodup := by
  rw [schedStep_eq]
  induction schedTickers g generalizing m with
  | nil => exact h
  | cons t ts ih =>
    simp only [List.foldl_cons]
    exact ih _ (nodup_insertIfAbsent m _ _ h)

theorem nodup_schedPass (lines : List PendingLine) (m : PendingMap)
    (h : (keysOf m).Nodup) : (keysOf (schedPass lines m)).Nodup := by
  induction lines generalizing m with
  | nil => exact h
  | cons l lines ih =>
    unfold schedPass at ih ⊢
    simp only [List.foldl_cons]
    cases l.sched with
    | none => exact ih _ h
    | some g => exact ih _ (nodup_schedStep m g h)

theorem nodup_compPass (lines : List PendingLine) (m : PendingMap)
    (h : (keysOf m).Nodup) : (keysOf (compPass lines m)).Nodup := by
  induction lines generalizing m with
  | nil => exact h
  | cons l lines ih =>
    unfold compPass at ih ⊢
    simp only [List.foldl_cons]
    cases l.comp with
    | none => exact ih _ h
    | some g => exact ih _ (nodup_compStep m g h)

theorem countP_key_eq_zero (m : PendingMap) {k : LifecycleKey}
    (h : m.lookup k = none) : m.countP (fun p => p.1 == k) = 0 := by
  rw [List.countP_eq_zero]
  rw [lookup_eq_none_iff] at h
  intro p hp
  simpa using h p hp

theorem countP_key_eq_one (m : PendingMap) {k : LifecycleKey}
    {v : PendingOrder} (hnd : (keysOf m).Nodup) (h : m.lookup k = some v) :
    m.countP (fun p => p.1 == k) = 1 := by
  induction m with
  | nil => cases h
  | cons p m ih =>
    obtain ⟨pk, pv⟩ := p
    unfold keysOf at hnd
    simp only [List.map_cons, List.nodup_cons] at hnd
    rw [List.countP_cons]
    by_cases he : k = pk
    · subst he
      have hz : m.lookup k = none := by
        apply lookup_eq_none_of_not_mem_keysOf
        exact hnd.1
      rw [countP_key_eq_zero m hz]
      simp
    · have hb : ((pk, pv).1 == k) = false := beq_false_of_ne fun e => he e.symm
      rw [List.lookup_cons, beq_false_of_ne he] at h
      rw [ih hnd.2 h]
      simp [hb]

/-! ## Lemmas about the alert scanner -/

theorem takeWhile_eq_self_of_all (p : α → Bool) (xs : List α)
    (h : ∀ x ∈ xs, p x = true) : xs.takeWhile p = xs := by
  induction xs with
  | nil => rfl
  | cons x xs ih =>
    rw [List.takeWhile_cons, h x (List.mem_cons_self x xs)]
    rw [ih fun y hy => h y (List.mem_cons_of_mem x hy)]
    simp

theorem dropWhile_eq_nil_of_all (p : α → Bool) (xs : List α)
    (h : ∀ x ∈ xs, p x = true) : xs.dropWhile p = [] := by
  induction xs with
  | nil => rfl
  | cons x xs ih =>
    rw [List.dropWhile_cons, h x (List.mem_cons_self x xs)]
    simp only [if_true]
    exact ih fun y hy => h y (List.mem_cons_of_mem x hy)

/-- Decomposition of the scan at a trigger line whose block runs to the
next trigger line or to the end of input. -/
theorem scanAlerts_block (trigger : AlertLine) (block rest : List AlertLine)
    (htrig : trigger.hasReceived = true)
    (hblock : ∀ b ∈ block, b.hasReceived = false)
    (hrest : ∀ x ∈ rest.head?, x.hasReceived = true) :
    scanAlerts (trigger :: (block ++ rest)) =
      (buildAlert trigger block).toList ++ scanAlerts rest := by
  have hall : ∀ b ∈ block, (!b.hasReceived) = true := by
    intro b hb; rw [hblock b hb]; rfl
  have htake : (block ++ rest).takeWhile (fun x => !x.hasReceived) = block := by
    rw [List.takeWhile_append]
    rw [takeWhile_eq_self_of_all _ _ hall]
    simp only [if_true]
    cases rest with
    | nil => simp
    | cons r rest =>
      have : r.hasReceived = true := hrest r (by simp)
      rw [List.takeWhile_cons, this]
      simp
  have hdrop : (block ++ rest).dropWhile (fun x => !x.hasReceived) = rest := by
    rw [List.dropWhile_append]
    rw [dropWhile_eq_nil_of_all _ _ hall]
    simp only [List.isEmpty_nil, if_true]
    cases rest with
    | nil => rfl
    | cons r rest =>
      have : r.hasReceived = true := hrest r (by simp)
      rw [List.dropWhile_cons, this]
      simp
  rw [scanAlerts_trigger trigger _ htrig, htake, hdrop]

/-- The alert glyph is never already present: the message always starts
with the fixed literal text. -/
theorem glyph_not_prefixed (s : String) :
    pyStartsWith ("Reverse Stock Split Confirmed for " ++ s) "📰" = false := by
  unfold pyStartsWith
  rw [String.data_append]
  show List.isPrefixOf ['📰']
    ('R' :: ("everse Stock Split Confirmed for ".data ++ s.data)) = false
  simp [List.isPrefixOf]

/-- The message produced for a confirmed block, written out in full. -/
theorem buildAlert_confirmed (trigger : AlertLine) (block : List AlertLine)
    (hc : block.any (fun l => l.hasConfirmMarker && l.hasTrue) = true) :
    buildAlert trigger block = some ("📰 " ++
      ("Reverse Stock Split Confirmed for " ++
        trigger.tickerMatch.getD "UNKNOWN" ++ " on " ++
        triggerFormattedTime trigger.timeMatch) ++
      (match (block.filterMap (fun l => l.urlPayload)).getLast? with
        | some u => if u = "" then "" else " - " ++ u
        | none => "")) := by
  unfold buildAlert
  rw [hc]
  simp only [if_true]
  cases hu : (block.filterMap (fun l => l.urlPayload)).getLast? with
  | none =>
    simp only [hu, String.append_assoc]
    rw [glyph_not_prefixed]
    simp [String.append_assoc]
  | some u =>
    by_cases he : u = ""
    · subst he
      simp only [hu, if_true]
      simp only [String.append_assoc]
      rw [glyph_not_prefixed]
      simp [String.append_assoc]
    · simp only [hu, if_neg he, String.append_assoc]
      rw [glyph_not_prefixed]
      simp [String.append_assoc]

/-! ## Lemmas about the presentation sort -/

theorem rowLE_total (a b : HoldingRow) : (rowLE a b || rowLE b a) = true := by
  unfold rowLE rowSortKey
  cases ha : a.active <;> cases hb : b.active <;> simp <;> omega

theorem rowLE_trans (a b c : HoldingRow) (h₁ : rowLE a b = true)
    (h₂ : rowLE b c = true) : rowLE a c = true := by
  unfold rowLE rowSortKey at h₁ h₂ ⊢
  cases ha : a.active <;> cases hb : b.active <;> cases hcc : c.active <;>
    rw [ha, hb] at h₁ <;> rw [hb, hcc] at h₂ <;>
    simp at h₁ h₂ ⊢ <;> omega

theorem rowLE_imp (a b : HoldingRow) (h : rowLE a b = true) :
    (b.active = true → a.active = true) ∧
    (a.active = true → b.active = true → b.change_time ≤ a.change_time) := by
  unfold rowLE rowSortKey at h
  cases ha : a.active <;> cases hb : b.active <;> rw [ha] at h <;>
    rw [hb] at h <;> simp [ha, hb] at h ⊢ <;> omega

/-! ## Lemmas for the stripped rendering -/

theorem lstripZero_append (xs ys : List Char) (h : lstripZero xs ≠ []) :
    lstripZero (xs ++ ys) = lstripZero xs ++ ys := by
  induction xs with
  | nil => exact absurd rfl h
  | cons x xs ih =>
    unfold lstripZero at h ih ⊢
    rw [List.dropWhile_cons] at h
    rw [List.cons_append, List.dropWhile_cons, List.dropWhile_cons]
    by_cases hx : (x == '0') = true
    · rw [if_pos hx] at h
      rw [if_pos hx, if_pos hx]
      exact ih h
    · rw [if_neg hx, if_neg hx]
      rfl

/-! ## The claims -/

/-- C1: for every log in which a scheduled-order event for lifecycle key
`K` is ingested and a sent-order event with the same normalized key `K`
is also ingested, the pending-order map afterwards contains zero entries
for `K`; and ingesting a sent-order event for a key with no pending entry
leaves the pending-order map unchanged (silent no-op, no error). -/
theorem C1_sched_then_sent_cancels :
    (∀ (lines : List PendingLine) (m : PendingMap) (ls lc : PendingLine)
        (gs : SchedGroups) (gc : CompGroups) (K : LifecycleKey),
      ls ∈ lines → ls.sched = some gs → K ∈ schedKeys gs →
      lc ∈ lines → lc.comp = some gc → compKey gc = K →
      (update_pending_orders lines m).lookup K = none) ∧
    (∀ (m : PendingMap) (gc : CompGroups),
      m.lookup (compKey gc) = none → compStep m gc = m) := by
  constructor
  · intro lines m ls lc gs gc K _ _ _ hmem hc hk
    unfold update_pending_orders
    exact lookup_compPass_mem lines _ hmem hc hk
  · intro m gc h
    unfold compStep
    rw [h]
    simp

theorem C1_witness :
    (update_pending_orders
        [⟨some ⟨"buy", "AAPL", "10", "acme", "2024-01-01 09:30:00"⟩, none⟩,
         ⟨none, some ⟨"buy", "AAPL", some "acme"⟩⟩] []).lookup
      ("buy", "AAPL", "acme") = none ∧
    compStep [] ⟨"sell", "MSFT", none⟩ = [] :=
  ⟨C1_sched_then_sent_cancels.1
      [⟨some ⟨"buy", "AAPL", "10", "acme", "2024-01-01 09:30:00"⟩, none⟩,
       ⟨none, some ⟨"buy", "AAPL", some "acme"⟩⟩] []
      ⟨some ⟨"buy", "AAPL", "10", "acme", "2024-01-01 09:30:00"⟩, none⟩
      ⟨none, some ⟨"buy", "AAPL", some "acme"⟩⟩
      ⟨"buy", "AAPL", "10", "acme", "2024-01-01 09:30:00"⟩
      ⟨"buy", "AAPL", some "acme"⟩ ("buy", "AAPL", "acme")
      (by decide) (by decide) (by decide) (by decide) (by decide)
      (by decide),
   C1_sched_then_sent_cancels.2 [] ⟨"sell", "MSFT", none⟩ (by decide)⟩

/-- C2: the pending-order map always keeps at most one pending order per
lifecycle key (the key lists stay duplicate-free through every scheduled
step, completion step and full refresh), and ingesting two
scheduled-order events for the same key `K` with no intervening
completion leaves exactly one entry for `K` carrying the quantity and
time of the first event seen — the later duplicate is ignored, not
merged. -/
theorem C2_unique_keys_first_wins :
    (∀ (m : PendingMap) (g : SchedGroups),
      (keysOf m).Nodup → (keysOf (schedStep m g)).Nodup) ∧
    (∀ (m : PendingMap) (g : CompGroups),
      (keysOf m).Nodup → (keysOf (compStep m g)).Nodup) ∧
    (∀ (lines : List PendingLine) (m : PendingMap),
      (keysOf m).Nodup → (keysOf (update_pending_orders lines m)).Nodup) ∧
    (∀ (m : PendingMap) (g1 g2 : SchedGroups) (t0 : String),
      t0 ∈ schedTickers g1 →
      (pyLower g1.action, t0, pyLower g1.broker) ∈ schedKeys g2 →
      m.lookup (pyLower g1.action, t0, pyLower g1.broker) = none →
      (keysOf m).Nodup →
      (schedStep (schedStep m g1) g2).lookup
          (pyLower g1.action, t0, pyLower g1.broker) =
        some (schedOrder g1 t0) ∧
      (schedStep (schedStep m g1) g2).countP
          (fun p => p.1 == (pyLower g1.action, t0, pyLower g1.broker))
        = 1) := by
  refine ⟨?_, ?_, ?_, ?_⟩
  · intro m g h
    exact nodup_schedStep m g h
  · intro m g h
    exact nodup_compStep m g h
  · intro lines m h
    unfold update_pending_orders
    exact nodup_compPass _ _ (nodup_schedPass _ _ h)
  · intro m g1 g2 t0 ht _ hnone hnd
    have h1 := lookup_schedStep_new m g1 ht hnone
    have h2 := lookup_schedStep_pres (schedStep m g1) g2 h1
    refine ⟨h2, ?_⟩
    exact countP_key_eq_one _
      (nodup_schedStep _ g2 (nodup_schedStep _ g1 hnd)) h2

theorem C2_witness :
    (schedStep (schedStep []
        ⟨"buy", "AAPL", "10", "acme", "2024-01-01 09:30:00"⟩)
        ⟨"buy", "aapl", "99", "ACME", "2024-02-02 10:00:00"⟩).lookup
      ("buy", "AAPL", "acme") =
      some ⟨"10", "2024-01-01 09:30:00", "buy", "AAPL", "acme"⟩ ∧
    (schedStep (schedStep []
        ⟨"buy", "AAPL", "10", "acme", "2024-01-01 09:30:00"⟩)
        ⟨"buy", "aapl", "99", "ACME", "2024-02-02 10:00:00"⟩).countP
      (fun p => p.1 == ("buy", "AAPL", "acme")) = 1 :=
  C2_unique_keys_first_wins.2.2.2 []
    ⟨"buy", "AAPL", "10", "acme", "2024-01-01 09:30:00"⟩
    ⟨"buy", "aapl", "99", "ACME", "2024-02-02 10:00:00"⟩ "AAPL"
    (by decide) (by decide) (by decide) (by decide)

/-- C9: a sent-order event whose line carries no trailing broker token is
given broker = empty string; processing it removes a pending order only
when that order's key broker field is also the empty string (the lookup
of every key with a non-empty broker field is untouched), and it removes
the empty-broker key itself if present. -/
theorem C9_brokerless_sent_matches_only_empty :
    ∀ (g : CompGroups), g.broker = none →
      compKey g = (pyLower g.action, pyUpper g.ticker, "") ∧
      (∀ (m : PendingMap) (k : LifecycleKey), k.2.2 ≠ "" →
        (compStep m g).lookup k = m.lookup k) ∧
      (∀ (m : PendingMap),
        (compStep m g).lookup (pyLower g.action, pyUpper g.ticker, "")
          = none) := by
  intro g hb
  have hpk : compKey g = (pyLower g.action, pyUpper g.ticker, "") := by
    unfold compKey
    rw [hb]
    rfl
  refine ⟨hpk, ?_, ?_⟩
  · intro m k hk
    apply lookup_compStep_ne
    intro e
    apply hk
    rw [e, hpk]
  · intro m
    rw [← hpk]
    exact lookup_compStep_self m g

theorem C9_witness :
    compKey ⟨"buy", "AAPL", none⟩ = ("buy", "AAPL", "") ∧
    (compStep [(("buy", "AAPL", "acme"),
        ⟨"10", "2024-01-01 09:30:00", "buy", "AAPL", "acme"⟩)]
      ⟨"buy", "AAPL", none⟩).lookup ("buy", "AAPL", "acme") =
      ([(("buy", "AAPL", "acme"),
        ⟨"10", "2024-01-01 09:30:00", "buy", "AAPL", "acme"⟩)] :
          PendingMap).lookup ("buy", "AAPL", "acme") ∧
    (compStep [(("buy", "AAPL", ""),
        ⟨"10", "2024-01-01 09:30:00", "buy", "AAPL", ""⟩)]
      ⟨"buy", "AAPL", none⟩).lookup ("buy", "AAPL", "") = none :=
  ⟨(C9_brokerless_sent_matches_only_empty ⟨"buy", "AAPL", none⟩ rfl).1,
   (C9_brokerless_sent_matches_only_empty ⟨"buy", "AAPL", none⟩ rfl).2.1
     [(("buy", "AAPL", "acme"),
       ⟨"10", "2024-01-01 09:30:00", "buy", "AAPL", "acme"⟩)]
     ("buy", "AAPL", "acme") (by decide),
   (C9_brokerless_sent_matches_only_empty ⟨"buy", "AAPL", none⟩ rfl).2.2
     [(("buy", "AAPL", ""),
       ⟨"10", "2024-01-01 09:30:00", "buy", "AAPL", ""⟩)]⟩

/-- C10: a single refresh processes the whole log in two separate passes —
first every scheduled line, then every sent line — so for any log holding
both a scheduled line and a matching sent line for key `K`, the key ends
the refresh absent from the pending map even when the sent line appears
earlier in the file than its scheduled line. -/
theorem C10_sent_before_sched_still_cancels :
    (∀ (lines : List PendingLine) (m : PendingMap),
      update_pending_orders lines m = compPass lines (schedPass lines m)) ∧
    (∀ (pre mid post : List PendingLine) (m : PendingMap)
        (sl cl : PendingLine) (gs : SchedGroups) (gc : CompGroups)
        (K : LifecycleKey),
      sl.sched = some gs → K ∈ schedKeys gs →
      cl.comp = some gc → compKey gc = K →
      (update_pending_orders (pre ++ cl :: (mid ++ sl :: post)) m).lookup K
        = none) := by
  constructor
  · intro lines m
    rfl
  · intro pre mid post m sl cl gs gc K _ _ hc hk
    unfold update_pending_orders
    exact lookup_compPass_mem _ _ (by simp) hc hk

theorem C10_witness :
    (update_pending_orders
        [⟨none, some ⟨"buy", "AAPL", some "acme"⟩⟩,
         ⟨some ⟨"buy", "AAPL", "10", "acme", "2024-01-01 09:30:00"⟩, none⟩]
        []).lookup ("buy", "AAPL", "acme") = none :=
  C10_sent_before_sched_still_cancels.2 [] [] [] []
    ⟨some ⟨"buy", "AAPL", "10", "acme", "2024-01-01 09:30:00"⟩, none⟩
    ⟨none, some ⟨"buy", "AAPL", some "acme"⟩⟩
    ⟨"buy", "AAPL", "10", "acme", "2024-01-01 09:30:00"⟩
    ⟨"buy", "AAPL", some "acme"⟩ ("buy", "AAPL", "acme")
    rfl (by decide) rfl (by decide)

/-- C3: observing a known key when the entry is active and at least 60
seconds have elapsed since the change started resets the baseline to the
current totals, clears the active state and reports no delta; otherwise
the delta is recomputed as current minus baseline, and a zero-to-nonzero
transition stamps the change-start time to now.  In particular the
concrete trace observe(100, 1000, 0); observe(110, 1000, 1) yields
active with delta-quantity 10, and observe(110, 1000, 62) yields
inactive with baseline (110, 1000). -/
theorem C3_observe_decay_and_delta :
    (∀ (e : ChangeEntry) (q v now t : Int), e.last_change_time = some t →
      now - t ≥ 60 → observeEntry (some e) q v now = ⟨q, v, none, 0, 0⟩) ∧
    (∀ (e : ChangeEntry) (q v now t : Int), e.last_change_time = some t →
      now - t < 60 →
      observeEntry (some e) q v now =
        ⟨e.baseline_quantity, e.baseline_value, some t,
         q - e.baseline_quantity, v - e.baseline_value⟩) ∧
    (∀ (e : ChangeEntry) (q v now : Int), e.last_change_time = none →
      (q - e.baseline_quantity ≠ 0 ∨ v - e.baseline_value ≠ 0) →
      observeEntry (some e) q v now =
        ⟨e.baseline_quantity, e.baseline_value, some now,
         q - e.baseline_quantity, v - e.baseline_value⟩) ∧
    ((observeEntry (some (observeEntry none 100 1000 0)) 110 1000 1).active
        = true ∧
     (observeEntry (some (observeEntry none 100 1000 0)) 110 1000
        1).delta_quantity = 10 ∧
     (observeEntry (some (observeEntry
        (some (observeEntry none 100 1000 0)) 110 1000 1)) 110 1000 62)
       = ⟨110, 1000, none, 0, 0⟩) := by
  refine ⟨?_, ?_, ?_, by decide, by decide, by decide⟩
  · intro e q v now t he hge
    simp [observeEntry, he, if_pos hge, sub_self]
  · intro e q v now t he hlt
    have hn : ¬ (now - t ≥ 60) := by omega
    simp [observeEntry, he, if_neg hn]
  · intro e q v now he hnz
    simp only [observeEntry, he]
    rw [if_pos hnz]

theorem C3_witness :
    observeEntry (some ⟨100, 1000, some 1, 10, 0⟩) 110 1000 62
      = ⟨110, 1000, none, 0, 0⟩ ∧
    observeEntry (some ⟨100, 1000, some 1, 10, 0⟩) 112 1000 30
      = ⟨100, 1000, some 1, 12, 0⟩ ∧
    observeEntry (some ⟨100, 1000, none, 0, 0⟩) 110 1000 1
      = ⟨100, 1000, some 1, 10, 0⟩ :=
  ⟨C3_observe_decay_and_delta.1 ⟨100, 1000, some 1, 10, 0⟩ 110 1000 62 1
     rfl (by decide),
   C3_observe_decay_and_delta.2.1 ⟨100, 1000, some 1, 10, 0⟩ 112 1000 30 1
     rfl (by decide),
   C3_observe_decay_and_delta.2.2.1 ⟨100, 1000, none, 0, 0⟩ 110 1000 1
     rfl (by decide)⟩

/-- C4: for every change entry and every observation, while the entry is
active after the observation its stored delta equals the observed current
value minus the baseline exactly and the baseline fields carry over
unmodified; the baseline fields are written only at entry creation and at
a 60-second decay-reset (any observation that changes a baseline field
produces exactly the freshly-reset entry). -/
theorem C4_baseline_frozen_while_active :
    (∀ (q v now : Int), observeEntry none q v now = ⟨q, v, none, 0, 0⟩) ∧
    (∀ (e : ChangeEntry) (q v now : Int),
      (observeEntry (some e) q v now).active = true →
      (observeEntry (some e) q v now).baseline_quantity =
          e.baseline_quantity ∧
      (observeEntry (some e) q v now).baseline_value = e.baseline_value ∧
      (observeEntry (some e) q v now).delta_quantity =
          q - e.baseline_quantity ∧
      (observeEntry (some e) q v now).delta_value =
          v - e.baseline_value) ∧
    (∀ (e : ChangeEntry) (q v now : Int),
      ((observeEntry (some e) q v now).baseline_quantity ≠
          e.baseline_quantity ∨
       (observeEntry (some e) q v now).baseline_value ≠
          e.baseline_value) →
      observeEntry (some e) q v now = ⟨q, v, none, 0, 0⟩) := by
  refine ⟨fun q v now => rfl, ?_, ?_⟩
  · intro e q v now
    cases he : e.last_change_time with
    | none =>
      by_cases hnz : q - e.baseline_quantity ≠ 0 ∨ v - e.baseline_value ≠ 0
      · simp only [observeEntry, he]
        rw [if_pos hnz]
        intro
        exact ⟨rfl, rfl, rfl, rfl⟩
      · simp only [observeEntry, he]
        rw [if_neg hnz]
        unfold ChangeEntry.active
        rw [he]
        intro hfalse
        cases hfalse
    | some t =>
      by_cases hd : now - t ≥ 60
      · intro hact
        have : observeEntry (some e) q v now = ⟨q, v, none, 0, 0⟩ := by
          simp [observeEntry, he, if_pos hd, sub_self]
        rw [this] at hact
        cases hact
      · have : observeEntry (some e) q v now =
            ⟨e.baseline_quantity, e.baseline_value, some t,
             q - e.baseline_quantity, v - e.baseline_value⟩ := by
          simp [observeEntry, he, if_neg hd]
        rw [this]
        intro
        exact ⟨rfl, rfl, rfl, rfl⟩
  · intro e q v now
    cases he : e.last_change_time with
    | none =>
      by_cases hnz : q - e.baseline_quantity ≠ 0 ∨ v - e.baseline_value ≠ 0
      · simp only [observeEntry, he]
        rw [if_pos hnz]
        intro hch
        rcases hch with hch | hch <;> exact absurd rfl hch
      · simp only [observeEntry, he]
        rw [if_neg hnz]
        intro hch
        rcases hch with hch | hch <;> exact absurd rfl hch
    | some t =>
      by_cases hd : now - t ≥ 60
      · intro
        simp [observeEntry, he, if_pos hd, sub_self]
      · have : observeEntry (some e) q v now =
            ⟨e.baseline_quantity, e.baseline_value, some t,
             q - e.baseline_quantity, v - e.baseline_value⟩ := by
          simp [observeEntry, he, if_neg hd]
        rw [this]
        intro hch
        rcases hch with hch | hch <;> exact absurd rfl hch

theorem C4_witness :
    (observeEntry none 7 8 9 = ⟨7, 8, none, 0, 0⟩) ∧
    ((observeEntry (some ⟨100, 1000, some 1, 10, 0⟩) 112 997
        30).baseline_quantity = 100 ∧
     (observeEntry (some ⟨100, 1000, some 1, 10, 0⟩) 112 997
        30).delta_quantity = 12 ∧
     (observeEntry (some ⟨100, 1000, some 1, 10, 0⟩) 112 997
        30).delta_value = -3) ∧
    observeEntry (some ⟨100, 1000, some 1, 10, 0⟩) 112 997 61
      = ⟨112, 997, none, 0, 0⟩ :=
  ⟨C4_baseline_frozen_while_active.1 7 8 9,
   ⟨(C4_baseline_frozen_while_active.2.1 ⟨100, 1000, some 1, 10, 0⟩ 112 997
       30 (by decide)).1,
    (C4_baseline_frozen_while_active.2.1 ⟨100, 1000, some 1, 10, 0⟩ 112 997
       30 (by decide)).2.2.1,
    (C4_baseline_frozen_while_active.2.1 ⟨100, 1000, some 1, 10, 0⟩ 112 997
       30 (by decide)).2.2.2⟩,
   C4_baseline_frozen_while_active.2.2 ⟨100, 1000, some 1, 10, 0⟩ 112 997 61
     (by decide)⟩

/-- C8: for every set of observed entries, the presentation order is a
permutation of the built rows in which every active entry precedes every
inactive entry, and the active entries appear in non-increasing
activation time (most recently activated first). -/
theorem C8_active_first_recent_first :
    ∀ (rows : List HoldingRow),
      (sortRows rows).Perm rows ∧
      (sortRows rows).Pairwise (fun a b =>
        (b.active = true → a.active = true) ∧
        (a.active = true → b.active = true →
          b.change_time ≤ a.change_time)) := by
  intro rows
  constructor
  · exact List.mergeSort_perm rows rowLE
  · have hs := List.sorted_mergeSort rowLE_trans
      (fun a b => rowLE_total a b) rows
    exact List.Pairwise.imp (fun h => rowLE_imp _ _ h) hs

/-- C5: the alert buffer after a refresh holds at most five alert
records; when the scan yields seven confirmed alerts, exactly the last
five in document order are retained; and the refresh result is a
function of the given lines alone — the previous buffer contents never
affect the output. -/
theorem C5_bounded_memoryless_last_five :
    ∀ (prev prev' : List String) (lines : List AlertLine),
      update_nasdaq_alerts prev lines = update_nasdaq_alerts prev' lines ∧
      (update_nasdaq_alerts prev lines).length ≤ 5 ∧
      ((scanAlerts lines).length = 7 →
        update_nasdaq_alerts prev lines = (scanAlerts lines).drop 2) := by
  intro prev prev' lines
  refine ⟨rfl, ?_, ?_⟩
  · unfold update_nasdaq_alerts
    rw [List.length_drop]
    omega
  · intro h7
    show (scanAlerts lines).drop ((scanAlerts lines).length - 5) =
      (scanAlerts lines).drop 2
    rw [h7]

theorem C5_witness :
    (scanAlerts
        [⟨true, none, some "T1", none, false, false⟩,
         ⟨false, none, none, none, true, true⟩,
         ⟨true, none, some "T2", none, false, false⟩,
         ⟨false, none, none, none, true, true⟩,
         ⟨true, none, some "T3", none, false, false⟩,
         ⟨false, none, none, none, true, true⟩,
         ⟨true, none, some "T4", none, false, false⟩,
         ⟨false, none, none, none, true, true⟩,
         ⟨true, none, some "T5", none, false, false⟩,
         ⟨false, none, none, none, true, true⟩,
         ⟨true, none, some "T6", none, false, false⟩,
         ⟨false, none, none, none, true, true⟩,
         ⟨true, none, some "T7", none, false, false⟩,
         ⟨false, none, none, none, true, true⟩]).length = 7 ∧
    update_nasdaq_alerts ["stale alert"]
        [⟨true, none, some "T1", none, false, false⟩,
         ⟨false, none, none, none, true, true⟩,
         ⟨true, none, some "T2", none, false, false⟩,
         ⟨false, none, none, none, true, true⟩,
         ⟨true, none, some "T3", none, false, false⟩,
         ⟨false, none, none, none, true, true⟩,
         ⟨true, none, some "T4", none, false, false⟩,
         ⟨false, none, none, none, true, true⟩,
         ⟨true, none, some "T5", none, false, false⟩,
         ⟨false, none, none, none, true, true⟩,
         ⟨true, none, some "T6", none, false, false⟩,
         ⟨false, none, none, none, true, true⟩,
         ⟨true, none, some "T7", none, false, false⟩,
         ⟨false, none, none, none, true, true⟩] =
      (scanAlerts
        [⟨true, none, some "T1", none, false, false⟩,
         ⟨false, none, none, none, true, true⟩,
         ⟨true, none, some "T2", none, false, false⟩,
         ⟨false, none, none, none, true, true⟩,
         ⟨true, none, some "T3", none, false, false⟩,
         ⟨false, none, none, none, true, true⟩,
         ⟨true, none, some "T4", none, false, false⟩,
         ⟨false, none, none, none, true, true⟩,
         ⟨true, none, some "T5", none, false, false⟩,
         ⟨false, none, none, none, true, true⟩,
         ⟨true, none, some "T6", none, false, false⟩,
         ⟨false, none, none, none, true, true⟩,
         ⟨true, none, some "T7", none, false, false⟩,
         ⟨false, none, none, none, true, true⟩]).drop 2 :=
  ⟨by decide,
   (C5_bounded_memoryless_last_five ["stale alert"] []
     [⟨true, none, some "T1", none, false, false⟩,
      ⟨false, none, none, none, true, true⟩,
      ⟨true, none, some "T2", none, false, false⟩,
      ⟨false, none, none, none, true, true⟩,
      ⟨true, none, some "T3", none, false, false⟩,
      ⟨false, none, none, none, true, true⟩,
      ⟨true, none, some "T4", none, false, false⟩,
      ⟨false, none, none, none, true, true⟩,
      ⟨true, none, some "T5", none, false, false⟩,
      ⟨false, none, none, none, true, true⟩,
      ⟨true, none, some "T6", none, false, false⟩,
      ⟨false, none, none, none, true, true⟩,
      ⟨true, none, some "T7", none, false, false⟩,
      ⟨false, none, none, none, true, true⟩]).2.2 (by decide)⟩

/-- C6 counterexample: a confirmed block containing a URL detail line
whose payload is empty.  The claim as stated appends the dash-URL suffix
whenever a URL detail line was found, but the source's `if url:` check
treats the empty payload as no URL and omits the suffix, so the produced
record differs from the claimed text. -/
theorem C6_counterexample :
    buildAlert ⟨true, none, some "TSLA", none, false, false⟩
        [⟨false, none, none, some "", false, false⟩,
         ⟨false, none, none, none, true, true⟩] =
      some "📰 Reverse Stock Split Confirmed for TSLA on " ∧
    specAlertText ⟨true, none, some "TSLA", none, false, false⟩
        [⟨false, none, none, some "", false, false⟩,
         ⟨false, none, none, none, true, true⟩] =
      "📰 Reverse Stock Split Confirmed for TSLA on  - " ∧
    buildAlert ⟨true, none, some "TSLA", none, false, false⟩
        [⟨false, none, none, some "", false, false⟩,
         ⟨false, none, none, none, true, true⟩] ≠
      some (specAlertText ⟨true, none, some "TSLA", none, false, false⟩
        [⟨false, none, none, some "", false, false⟩,
         ⟨false, none, none, none, true, true⟩]) := by
  refine ⟨by decide, by decide, by decide⟩

/-- C6 (amended): a trigger block — from a "Received message:" line to
the next such line or end of input — yields an alert record iff some
detail line inside the block contains the confirmation marker together
with the substring "True"; a block whose confirmation line lacks "True"
yields zero records.  A produced record's text is the glyph-prefixed
"Reverse Stock Split Confirmed for (ticker) on (formatted timestamp)",
with the dash-URL suffix appended iff the last URL payload found in the
block is nonempty (an empty trimmed payload is falsy in the source's
`if url:` check and suppresses the suffix). -/
theorem C6_block_confirmation_and_text :
    ∀ (trigger : AlertLine) (block rest : List AlertLine),
      trigger.hasReceived = true →
      (∀ b ∈ block, b.hasReceived = false) →
      (∀ x ∈ rest.head?, x.hasReceived = true) →
      scanAlerts (trigger :: (block ++ rest)) =
        (buildAlert trigger block).toList ++ scanAlerts rest ∧
      ((buildAlert trigger block).isSome = true ↔
        ∃ l ∈ block, l.hasConfirmMarker = true ∧ l.hasTrue = true) ∧
      (block.any (fun l => l.hasConfirmMarker && l.hasTrue) = true →
        buildAlert trigger block = some ("📰 " ++
          ("Reverse Stock Split Confirmed for " ++
            trigger.tickerMatch.getD "UNKNOWN" ++ " on " ++
            triggerFormattedTime trigger.timeMatch) ++
          (match (block.filterMap (fun l => l.urlPayload)).getLast? with
            | some u => if u = "" then "" else " - " ++ u
            | none => ""))) := by
  intro trigger block rest htrig hblock hrest
  refine ⟨scanAlerts_block trigger block rest htrig hblock hrest, ?_,
    buildAlert_confirmed trigger block⟩
  constructor
  · intro hs
    by_cases hc : block.any (fun l => l.hasConfirmMarker && l.hasTrue) = true
    · obtain ⟨l, hl, hp⟩ := List.any_eq_true.mp hc
      exact ⟨l, hl, by simpa using hp⟩
    · exfalso
      have hc' : block.any (fun l => l.hasConfirmMarker && l.hasTrue)
          = false := by
        simpa using hc
      unfold buildAlert at hs
      rw [hc'] at hs
      simp at hs
  · rintro ⟨l, hl, hcm, ht⟩
    have hc : block.any (fun l => l.hasConfirmMarker && l.hasTrue)
        = true :=
      List.any_eq_true.mpr ⟨l, hl, by rw [hcm, ht]; rfl⟩
    rw [buildAlert_confirmed trigger block hc]
    rfl

theorem C6_witness :
    scanAlerts
        [⟨true, none, some "TSLA", none, false, false⟩,
         ⟨false, none, none, some "http://x", false, false⟩,
         ⟨false, none, none, none, true, true⟩] =
      (buildAlert ⟨true, none, some "TSLA", none, false, false⟩
        [⟨false, none, none, some "http://x", false, false⟩,
         ⟨false, none, none, none, true, true⟩]).toList
        ++ scanAlerts [] ∧
    (buildAlert ⟨true, none, some "TSLA", none, false, false⟩
        [⟨false, none, none, some "http://x", false, false⟩,
         ⟨false, none, none, none, true, true⟩]).isSome = true ∧
    buildAlert ⟨true, none, some "TSLA", none, false, false⟩
        [⟨false, none, none, some "http://x", false, false⟩,
         ⟨false, none, none, none, true, true⟩] =
      some "📰 Reverse Stock Split Confirmed for TSLA on  - http://x" :=
  ⟨(C6_block_confirmation_and_text
      ⟨true, none, some "TSLA", none, false, false⟩
      [⟨false, none, none, some "http://x", false, false⟩,
       ⟨false, none, none, none, true, true⟩] [] rfl (by decide)
      (by decide)).1,
   (C6_block_confirmation_and_text
      ⟨true, none, some "TSLA", none, false, false⟩
      [⟨false, none, none, some "http://x", false, false⟩,
       ⟨false, none, none, none, true, true⟩] [] rfl (by decide)
      (by decide)).2.1.mpr (by decide),
   ((C6_block_confirmation_and_text
      ⟨true, none, some "TSLA", none, false, false⟩
      [⟨false, none, none, some "http://x", false, false⟩,
       ⟨false, none, none, none, true, true⟩] [] rfl (by decide)
      (by decide)).2.2 (by decide)).trans (by decide)⟩

/-- C7 counterexample: the timestamp 2024-01-05 09:30:00 parses
successfully and the source renders it as "1/05/2024 09:30 AM" — the
`lstrip("0")` call strips the leading zero of the MONTH at the front of
the formatted string, while the claimed rendering keeps the month padded
and strips the hour's zero instead. -/
theorem C7_counterexample :
    strptimeOk ⟨2024, 1, 5, 9, 30, 0⟩ = true ∧
    formatMatchedTime ⟨2024, 1, 5, 9, 30, 0⟩ = "1/05/2024 09:30 AM" ∧
    specHourStripRender ⟨2024, 1, 5, 9, 30, 0⟩ = "01/05/2024 9:30 AM" ∧
    formatMatchedTime ⟨2024, 1, 5, 9, 30, 0⟩ ≠
      specHourStripRender ⟨2024, 1, 5, 9, 30, 0⟩ := by
  refine ⟨by decide, by decide, by decide, by decide⟩

/-- C7 (amended): for every successfully parsed 24-hour timestamp the
rendered display string is the `MM/DD/YYYY hh:mm AM/PM` form with the
leading zeros of the WHOLE string stripped — i.e. the month loses its
zero-padding (the hour, not at the front, keeps its padding); when
parsing fails, rendering falls back to the degraded "time date"
concatenation (and the embedding is total — no exception escapes). -/
theorem C7_month_zero_stripped_with_fallback :
    ∀ (t : TimeGroups),
      (strptimeOk t = true →
        formatMatchedTime t = String.mk (Nat.toDigits 10 t.month ++ '/' ::
          padDigits 2 t.day ++ '/' :: padDigits 4 t.year ++ ' ' ::
          padDigits 2 (if t.hour % 12 = 0 then 12 else t.hour % 12) ++
          ':' :: padDigits 2 t.minute ++ ' ' ::
          (if t.hour < 12 then ['A', 'M'] else ['P', 'M']))) ∧
      (strptimeOk t = false →
        formatMatchedTime t = String.mk (timeChars t ++ ' ' ::
          dateChars t)) := by
  intro t
  obtain ⟨y, mo, d, hh, mi, s⟩ := t
  constructor
  · intro hok
    have hbound : 1 ≤ mo ∧ mo ≤ 12 := by
      unfold strptimeOk at hok
      simp only [Bool.and_eq_true, decide_eq_true_eq] at hok
      exact ⟨hok.1.1.1.1.1.1.2, hok.1.1.1.1.1.2⟩
    have key : lstripZero (padDigits 2 mo) = Nat.toDigits 10 mo ∧
        lstripZero (padDigits 2 mo) ≠ [] := by
      obtain ⟨h1, h2⟩ := hbound
      interval_cases mo <;> exact ⟨by decide, by decide⟩
    unfold formatMatchedTime
    rw [if_pos hok]
    unfold strftimeChars
    show String.mk (lstripZero (padDigits 2 mo ++ '/' :: padDigits 2 d
      ++ '/' :: padDigits 4 y ++ ' '
      :: padDigits 2 (if hh % 12 = 0 then 12 else hh % 12)
      ++ ':' :: padDigits 2 mi ++ ' '
      :: (if hh < 12 then ['A', 'M'] else ['P', 'M']))) = _
    simp only [List.append_assoc]
    rw [lstripZero_append _ _ key.2, key.1]
  · intro hbad
    unfold formatMatchedTime
    rw [if_neg]
    rw [hbad]
    exact Bool.false_ne_true

theorem C7_witness :
    formatMatchedTime ⟨2024, 11, 5, 19, 30, 0⟩ = "11/05/2024 07:30 PM" ∧
    formatMatchedTime ⟨2024, 13, 5, 9, 30, 0⟩ = "09:30:00 2024-13-05" :=
  ⟨((C7_month_zero_stripped_with_fallback ⟨2024, 11, 5, 19, 30, 0⟩).1
      (by decide)).trans (by decide),
   ((C7_month_zero_stripped_with_fallback ⟨2024, 13, 5, 9, 30, 0⟩).2
      (by decide)).trans (by decide)⟩

end RSDash
